import Mathlib

/-!
Shallow embedding of the runtime semantics of the repository's only
non-trivial runtime logic: the promise utilities in the async/await demo
(`delay`, `delayWithResult`, `properRace`) and the random-choice helper
`oneOf` (src/utils/oneOf.ts).

Modelling choices:

* A settled asynchronous operation (a JavaScript `Promise` that eventually
  settles) is an `Op ε α`: the scheduler time at which it settles together
  with its settlement, which is either a fulfilment value (`Except.ok`) or
  a rejection reason (`Except.error`).  All claims quantify over settled
  operations, so forever-pending promises are represented only where the
  code itself can produce them (`Promise.race` over an empty iterable),
  via `Option`.
* `p.then(f)` with only a fulfilment callback maps the value on fulfilment
  and passes a rejection through unchanged; the microtask hop it introduces
  is uniform across all derived promises, so relative settlement order is
  preserved and we keep the settlement time.
* `Promise.race` settles like the earliest-settling element of its
  iterable; when two elements settle on the same scheduler tick the
  reaction registered first (lowest index) runs first, so ties break
  toward the earlier list position.
* TypeScript's generic parameters `T1`, `T2` are compile-time only; at
  runtime all values inhabit one dynamic type, so the union `T1 | T2` is
  modelled by a single value type `α` (the upcast is the identity, exactly
  as in the JavaScript runtime).
* `Math.random()` returns a number in `[0, 1)`; it is modelled as an
  arbitrary rational `r` with `0 ≤ r < 1`, and the product
  `Math.random() * options.length` is exact.  For the arities in scope
  (2 to 5 options) IEEE rounding of the product also cannot reach
  `options.length`, so the rational model is faithful for the bounds
  property at issue.
-/

/-- A settled asynchronous operation: the scheduler time at which it
settles and its settlement (fulfilment value or rejection reason). -/
structure Op (ε α : Type) where
  time : Nat
  result : Except ε α

/-- Embeds `promise.then(f)` with only a fulfilment callback: the value is
mapped on fulfilment, a rejection is passed through verbatim. -/
def opThen {ε α β : Type} (p : Op ε α) (f : α → β) : Op ε β :=
  { time := p.time, result := p.result.map f }

/-- Embeds `Promise.race(iterable)`: the resulting promise adopts the
settlement of the earliest-settling element (ties break toward the earlier
index, the reaction registered first).  `none` is the forever-pending
promise produced by racing an empty iterable. -/
def race {ε α : Type} (ps : List (Op ε α)) : Option (Op ε α) :=
  ps.foldl
    (fun acc q =>
      match acc with
      | none => some q
      | some p => some (if p.time ≤ q.time then p else q))
    none

/-- Embeds `delay(milliseconds)`: fulfils with `undefined` (here `Unit`)
after the given number of milliseconds. -/
def delay {ε : Type} (milliseconds : Nat) : Op ε Unit :=
  { time := milliseconds, result := Except.ok () }

/-- Embeds `delayWithResult(result, milliseconds)`: awaits
`delay(milliseconds)` and then returns `result`. -/
def delayWithResult {ε α : Type} (result : α) (milliseconds : Nat) : Op ε α :=
  opThen (delay milliseconds) (fun _ => result)

/-- The `promiseArray` built by `properRace`: the two input promises in
argument order. -/
def promiseArrayOf {ε α : Type} (first second : Op ε α) : List (Op ε α) :=
  [first, second]

/-- The `indexPromises` built by `properRace`: each input promise mapped,
via `.then`, to a derived observer that fulfils with the promise's index
(and rejects with the original reason if the input rejects). -/
def indexPromisesOf {ε α : Type} (first second : Op ε α) : List (Op ε Nat) :=
  (promiseArrayOf first second).mapIdx (fun index promise => opThen promise (fun _ => index))

/-- The object returned by `properRace`: a single field `promise` holding
the looked-up original promise (`none` would be the `undefined` of an
out-of-range lookup). -/
structure RaceResult (ε α : Type) where
  promise : Option (Op ε α)

/-- Embeds `properRace(first, second)`: build `promiseArray`, derive the
`indexPromises`, `await Promise.race(indexPromises)`, and fulfil with the
object `{ promise: promiseArray[firstFinishedIndex] }`.  If the race
rejects, the `await` throws and `properRace`'s own promise rejects with the
same reason.  The outer `Option` is the (unreachable) forever-pending case
inherited from racing an empty iterable. -/
def properRace {ε α : Type} (first second : Op ε α) :
    Option (Op ε (RaceResult ε α)) :=
  (race (indexPromisesOf first second)).map (fun raced =>
    match raced.result with
    | Except.error e => { time := raced.time, result := Except.error e }
    | Except.ok index =>
        { time := raced.time
          result := Except.ok { promise := (promiseArrayOf first second)[index]? } })

/-- Embeds `oneOf(...options)`: pick `Math.floor(r * options.length)` as
index and return `options[index]` (`none` is JavaScript's `undefined` for
an out-of-range access). -/
def oneOf {α : Type} (options : List α) (r : ℚ) : Option α :=
  options[(⌊r * (options.length : ℚ)⌋).toNat]?

/-! Helper lemmas computing `race` and `properRace` on the two-element
array the source builds. -/

theorem indexPromisesOf_eq {ε α : Type} (first second : Op ε α) :
    indexPromisesOf first second =
      [opThen first (fun _ => 0), opThen second (fun _ => 1)] := by
  simp [indexPromisesOf, promiseArrayOf, List.mapIdx, List.mapIdx.go]

theorem race_pair {ε α : Type} (x y : Op ε α) :
    race [x, y] = some (if x.time ≤ y.time then x else y) := rfl

theorem race_index_fst {ε α : Type} (first second : Op ε α)
    (h : first.time ≤ second.time) :
    race (indexPromisesOf first second) = some (opThen first (fun _ => 0)) := by
  rw [indexPromisesOf_eq, race_pair]
  simp [opThen, h]

theorem race_index_snd {ε α : Type} (first second : Op ε α)
    (h : ¬ first.time ≤ second.time) :
    race (indexPromisesOf first second) = some (opThen second (fun _ => 1)) := by
  rw [indexPromisesOf_eq, race_pair]
  simp [opThen, h]

theorem properRace_fst_ok {ε α : Type} (first second : Op ε α) (v : α)
    (h : first.time ≤ second.time) (hv : first.result = Except.ok v) :
    properRace first second =
      some { time := first.time, result := Except.ok { promise := some first } } := by
  simp [properRace, race_index_fst first second h, opThen, Except.map, hv, promiseArrayOf]

theorem properRace_fst_err {ε α : Type} (first second : Op ε α) (e : ε)
    (h : first.time ≤ second.time) (he : first.result = Except.error e) :
    properRace first second =
      some { time := first.time, result := Except.error e } := by
  simp [properRace, race_index_fst first second h, opThen, Except.map, he]

theorem properRace_snd_ok {ε α : Type} (first second : Op ε α) (v : α)
    (h : ¬ first.time ≤ second.time) (hv : second.result = Except.ok v) :
    properRace first second =
      some { time := second.time, result := Except.ok { promise := some second } } := by
  simp [properRace, race_index_snd first second h, opThen, Except.map, hv, promiseArrayOf]

theorem properRace_snd_err {ε α : Type} (first second : Op ε α) (e : ε)
    (h : ¬ first.time ≤ second.time) (he : second.result = Except.error e) :
    properRace first second =
      some { time := second.time, result := Except.error e } := by
  simp [properRace, race_index_snd first second h, opThen, Except.map, he]

/-! Claim theorems. -/

/-- C10: for every value `r` and every delay duration `m`,
`delayWithResult(r, m)` resolves with exactly the value `r` that was passed
in, unchanged (and settles at time `m`). -/
theorem delayWithResult_returns_result {ε α : Type} (r : α) (m : Nat) :
    delayWithResult (ε := ε) r m = { time := m, result := Except.ok r } := rfl

/-- C5: whenever `properRace` resolves with an outcome, the promise carried
by the outcome is one of the two original input promises; no synthesized,
copied, or merged promise is ever returned. -/
theorem properRace_outcome_is_input {ε α : Type} (A B : Op ε α)
    (out : Op ε (RaceResult ε α)) (rr : RaceResult ε α)
    (h1 : properRace A B = some out) (h2 : out.result = Except.ok rr) :
    rr.promise = some A ∨ rr.promise = some B := by
  by_cases hle : A.time ≤ B.time
  · cases hA : A.result with
    | ok v =>
        rw [properRace_fst_ok A B v hle hA] at h1
        injection h1 with h1
        subst h1
        simp at h2
        subst h2
        left
        rfl
    | error e =>
        rw [properRace_fst_err A B e hle hA] at h1
        injection h1 with h1
        subst h1
        simp at h2
  · cases hB : B.result with
    | ok v =>
        rw [properRace_snd_ok A B v hle hB] at h1
        injection h1 with h1
        subst h1
        simp at h2
        subst h2
        right
        rfl
    | error e =>
        rw [properRace_snd_err A B e hle hB] at h1
        injection h1 with h1
        subst h1
        simp at h2

theorem properRace_outcome_is_input_witness :
    ({ promise := some { time := 1, result := Except.ok 10 } } : RaceResult String Nat).promise =
        some { time := 1, result := Except.ok 10 } ∨
    ({ promise := some { time := 1, result := Except.ok 10 } } : RaceResult String Nat).promise =
        some { time := 2, result := Except.ok 20 } :=
  properRace_outcome_is_input
    { time := 1, result := Except.ok 10 } { time := 2, result := Except.ok 20 }
    { time := 1, result := Except.ok { promise := some { time := 1, result := Except.ok 10 } } }
    { promise := some { time := 1, result := Except.ok 10 } } rfl rfl

/-- C6: the race resolver raises no error of its own on any valid input of
two operations: it always settles (never hangs), and every rejection it
produces is the verbatim failure of one of its input operations. -/
theorem properRace_no_own_error {ε α : Type} (A B : Op ε α) :
    (∃ out, properRace A B = some out) ∧
    (∀ out e, properRace A B = some out → out.result = Except.error e →
       A.result = Except.error e ∨ B.result = Except.error e) := by
  constructor
  · by_cases hle : A.time ≤ B.time
    · cases hA : A.result with
      | ok v => exact ⟨_, properRace_fst_ok A B v hle hA⟩
      | error e => exact ⟨_, properRace_fst_err A B e hle hA⟩
    · cases hB : B.result with
      | ok v => exact ⟨_, properRace_snd_ok A B v hle hB⟩
      | error e => exact ⟨_, properRace_snd_err A B e hle hB⟩
  · intro out e h1 h2
    by_cases hle : A.time ≤ B.time
    · cases hA : A.result with
      | ok v =>
          rw [properRace_fst_ok A B v hle hA] at h1
          injection h1 with h1
          subst h1
          simp at h2
      | error e2 =>
          rw [properRace_fst_err A B e2 hle hA] at h1
          injection h1 with h1
          subst h1
          simp at h2
          subst h2
          exact Or.inl rfl
    · cases hB : B.result with
      | ok v =>
          rw [properRace_snd_ok A B v hle hB] at h1
          injection h1 with h1
          subst h1
          simp at h2
      | error e2 =>
          rw [properRace_snd_err A B e2 hle hB] at h1
          injection h1 with h1
          subst h1
          simp at h2
          subst h2
          exact Or.inr rfl

theorem properRace_no_own_error_witness :
    ({ time := 1, result := Except.error "boom" } : Op String Nat).result = Except.error "boom" ∨
    ({ time := 2, result := Except.ok 0 } : Op String Nat).result = Except.error "boom" :=
  (properRace_no_own_error
      { time := 1, result := Except.error "boom" } { time := 2, result := Except.ok 0 }).2
    { time := 1, result := Except.error "boom" } "boom" rfl rfl

/-- C4: if an input operation fails before the other settles, the derived
index observer for it also fails, the underlying race settles with that
failure, and the failure surfaces verbatim as `properRace`'s own rejection;
first settlement wins whether the first settler fails in the first or the
second position. -/
theorem properRace_propagates_failure {ε α : Type} (A B : Op ε α) (e : ε) :
    (A.time < B.time → A.result = Except.error e →
       opThen A (fun _ => (0 : Nat)) = { time := A.time, result := Except.error e } ∧
       race (indexPromisesOf A B) = some { time := A.time, result := Except.error e } ∧
       properRace A B = some { time := A.time, result := Except.error e }) ∧
    (B.time < A.time → B.result = Except.error e →
       properRace A B = some { time := B.time, result := Except.error e }) := by
  constructor
  · intro h hA
    refine ⟨?_, ?_, ?_⟩
    · simp [opThen, hA, Except.map]
    · rw [race_index_fst A B (le_of_lt h)]
      simp [opThen, hA, Except.map]
    · exact properRace_fst_err A B e (le_of_lt h) hA
  · intro h hB
    exact properRace_snd_err A B e (not_le.mpr h) hB

theorem properRace_propagates_failure_witness :
    opThen ({ time := 5, result := Except.error "boom" } : Op String Bool) (fun _ => (0 : Nat)) =
        { time := 5, result := Except.error "boom" } ∧
    race (indexPromisesOf ({ time := 5, result := Except.error "boom" } : Op String Bool)
        { time := 100, result := Except.ok true }) =
      some { time := 5, result := Except.error "boom" } ∧
    properRace ({ time := 5, result := Except.error "boom" } : Op String Bool)
        { time := 100, result := Except.ok true } =
      some { time := 5, result := Except.error "boom" } :=
  (properRace_propagates_failure
      { time := 5, result := Except.error "boom" } { time := 100, result := Except.ok true }
      "boom").1 (by decide) rfl

/-- C3 counterexample, at the spec's own concrete scenario: operation A
fails after 5ms with `"boom"`, operation B fulfils after 100ms with `true`.
The claim says the race outcome resolves identifying A; in fact
`properRace` rejects with `"boom"` and no outcome carrying A's reference is
ever produced. -/
theorem properRace_fail_first_cex :
    ¬ ∃ (out : Op String (RaceResult String Bool)) (rr : RaceResult String Bool),
        properRace { time := 5, result := Except.error "boom" }
            { time := 100, result := Except.ok true } = some out ∧
        out.result = Except.ok rr ∧
        rr.promise = some { time := 5, result := Except.error "boom" } := by
  rintro ⟨out, rr, h1, h2, h3⟩
  have e : properRace ({ time := 5, result := Except.error "boom" } : Op String Bool)
      { time := 100, result := Except.ok true } =
      some { time := 5, result := Except.error "boom" } := rfl
  rw [e] at h1
  injection h1 with h1
  subst h1
  simp at h2

/-- C3, amended: when operation A fails strictly before B settles,
`properRace` does not resolve with an outcome; its own promise rejects at
A's settlement time with A's original failure, unchanged. -/
theorem properRace_fail_first_rejects {ε α : Type} (A B : Op ε α) (e : ε)
    (h : A.time < B.time) (hA : A.result = Except.error e) :
    properRace A B = some { time := A.time, result := Except.error e } :=
  properRace_fst_err A B e (le_of_lt h) hA

theorem properRace_fail_first_rejects_witness :
    properRace ({ time := 5, result := Except.error "boom" } : Op String Bool)
        { time := 100, result := Except.ok true } =
      some { time := 5, result := Except.error "boom" } :=
  properRace_fail_first_rejects
    { time := 5, result := Except.error "boom" } { time := 100, result := Except.ok true }
    "boom" (by decide) rfl

/-- C1 counterexample: operation A settles (by rejection) strictly before
B, yet the race outcome does not carry a reference to the operation at A's
position — `properRace` rejects and produces no outcome at all, so the
claim fails for pairs whose first settlement is a failure. -/
theorem properRace_first_wins_cex :
    ¬ ∃ (out : Op String (RaceResult String Nat)) (rr : RaceResult String Nat),
        properRace { time := 1, result := Except.error "e1" }
            { time := 2, result := Except.ok 7 } = some out ∧
        out.result = Except.ok rr ∧
        rr.promise = some { time := 1, result := Except.error "e1" } := by
  rintro ⟨out, rr, h1, h2, h3⟩
  have e : properRace ({ time := 1, result := Except.error "e1" } : Op String Nat)
      { time := 2, result := Except.ok 7 } =
      some { time := 1, result := Except.error "e1" } := rfl
  rw [e] at h1
  injection h1 with h1
  subst h1
  simp at h2

/-- C1, amended: when operation A settles strictly before B, the derived
index-only observer for A wins the underlying race; and when A's settlement
is a fulfilment, the race outcome resolves carrying a reference to the
operation at A's position, regardless of the result values involved. -/
theorem properRace_first_wins {ε α : Type} (A B : Op ε α) (h : A.time < B.time) :
    race (indexPromisesOf A B) = some (opThen A (fun _ => 0)) ∧
    ∀ v, A.result = Except.ok v →
      properRace A B = some { time := A.time, result := Except.ok { promise := some A } } :=
  ⟨race_index_fst A B (le_of_lt h), fun v hv => properRace_fst_ok A B v (le_of_lt h) hv⟩

theorem properRace_first_wins_witness :
    race (indexPromisesOf ({ time := 3, result := Except.ok 7 } : Op String Nat)
        { time := 9, result := Except.ok 8 }) =
      some (opThen ({ time := 3, result := Except.ok 7 } : Op String Nat) (fun _ => 0)) ∧
    properRace ({ time := 3, result := Except.ok 7 } : Op String Nat)
        { time := 9, result := Except.ok 8 } =
      some { time := 3
             result := Except.ok { promise := some { time := 3, result := Except.ok 7 } } } :=
  ⟨(properRace_first_wins { time := 3, result := Except.ok 7 }
      { time := 9, result := Except.ok 8 } (by decide)).1,
   (properRace_first_wins { time := 3, result := Except.ok 7 }
      { time := 9, result := Except.ok 8 } (by decide)).2 7 rfl⟩

/-- C8: the race result reflects whichever original operation settles
first in scheduler order, in either argument position — it settles at the
first settler's time and carries the winner's own outcome (a reference to
the winner on fulfilment, the winner's failure on rejection) — and the
later operation's settlement has no effect on the already-resolved
outcome: replacing the losing operation, in whichever position it sits, by
any other operation that still settles later leaves the result of
`properRace` unchanged. -/
theorem properRace_loser_irrelevant {ε α : Type} (A B A2 B2 : Op ε α) :
    (A.time < B.time → A.time < B2.time →
       properRace A B = properRace A B2 ∧
       ∃ out, properRace A B = some out ∧ out.time = A.time ∧
         (∀ v, A.result = Except.ok v →
            out.result = Except.ok { promise := some A }) ∧
         (∀ e, A.result = Except.error e → out.result = Except.error e)) ∧
    (B.time < A.time → B.time < A2.time →
       properRace A B = properRace A2 B ∧
       ∃ out, properRace A B = some out ∧ out.time = B.time ∧
         (∀ v, B.result = Except.ok v →
            out.result = Except.ok { promise := some B }) ∧
         (∀ e, B.result = Except.error e → out.result = Except.error e)) := by
  constructor
  · intro h h2
    cases hA : A.result with
    | ok v =>
        rw [properRace_fst_ok A B v (le_of_lt h) hA,
          properRace_fst_ok A B2 v (le_of_lt h2) hA]
        refine ⟨rfl, { time := A.time, result := Except.ok { promise := some A } },
          rfl, rfl, fun v2 hv2 => rfl, ?_⟩
        intro e2 he2
        simp [hA] at he2
    | error e =>
        rw [properRace_fst_err A B e (le_of_lt h) hA,
          properRace_fst_err A B2 e (le_of_lt h2) hA]
        refine ⟨rfl, { time := A.time, result := Except.error e }, rfl, rfl, ?_, ?_⟩
        · intro v hv
          simp [hA] at hv
        · intro e2 he2
          injection he2 with he2
          subst he2
          rfl
  · intro h h2
    cases hB : B.result with
    | ok v =>
        rw [properRace_snd_ok A B v (not_le.mpr h) hB,
          properRace_snd_ok A2 B v (not_le.mpr h2) hB]
        refine ⟨rfl, { time := B.time, result := Except.ok { promise := some B } },
          rfl, rfl, fun v2 hv2 => rfl, ?_⟩
        intro e2 he2
        simp [hB] at he2
    | error e =>
        rw [properRace_snd_err A B e (not_le.mpr h) hB,
          properRace_snd_err A2 B e (not_le.mpr h2) hB]
        refine ⟨rfl, { time := B.time, result := Except.error e }, rfl, rfl, ?_, ?_⟩
        · intro v hv
          simp [hB] at hv
        · intro e2 he2
          injection he2 with he2
          subst he2
          rfl

theorem properRace_loser_irrelevant_witness :
    (properRace ({ time := 10, result := Except.ok 42 } : Op String Nat)
         { time := 1000, result := Except.ok 7 } =
       properRace { time := 10, result := Except.ok 42 }
         { time := 500, result := Except.error "late" } ∧
     ∃ out,
       properRace ({ time := 10, result := Except.ok 42 } : Op String Nat)
           { time := 1000, result := Except.ok 7 } = some out ∧
       out.time = 10 ∧
       (∀ v, ({ time := 10, result := Except.ok 42 } : Op String Nat).result = Except.ok v →
          out.result = Except.ok { promise := some { time := 10, result := Except.ok 42 } }) ∧
       (∀ e, ({ time := 10, result := Except.ok 42 } : Op String Nat).result = Except.error e →
          out.result = Except.error e)) ∧
    (properRace ({ time := 1000, result := Except.ok 7 } : Op String Nat)
         { time := 10, result := Except.ok 42 } =
       properRace { time := 500, result := Except.error "late" }
         { time := 10, result := Except.ok 42 } ∧
     ∃ out,
       properRace ({ time := 1000, result := Except.ok 7 } : Op String Nat)
           { time := 10, result := Except.ok 42 } = some out ∧
       out.time = 10 ∧
       (∀ v, ({ time := 10, result := Except.ok 42 } : Op String Nat).result = Except.ok v →
          out.result = Except.ok { promise := some { time := 10, result := Except.ok 42 } }) ∧
       (∀ e, ({ time := 10, result := Except.ok 42 } : Op String Nat).result = Except.error e →
          out.result = Except.error e)) :=
  ⟨(properRace_loser_irrelevant
      { time := 10, result := Except.ok 42 } { time := 1000, result := Except.ok 7 }
      { time := 999, result := Except.ok 0 }
      { time := 500, result := Except.error "late" }).1 (by decide) (by decide),
   (properRace_loser_irrelevant
      { time := 1000, result := Except.ok 7 } { time := 10, result := Except.ok 42 }
      { time := 500, result := Except.error "late" }
      { time := 999, result := Except.ok 0 }).2 (by decide) (by decide)⟩

/-- C2 counterexample: two races with different winning indices (the race
on index observers fulfils with index 1 in the first call and index 0 in
the second) produce identical outcomes, so the outcome returned by
`properRace` contains no integer index field identifying the winning
position — it carries only the looked-up promise reference. -/
theorem properRace_outcome_no_index_cex :
    race (indexPromisesOf ({ time := 5, result := Except.ok 2 } : Op String Nat)
        { time := 3, result := Except.ok 1 }) =
      some { time := 3, result := Except.ok 1 } ∧
    race (indexPromisesOf ({ time := 3, result := Except.ok 1 } : Op String Nat)
        { time := 5, result := Except.ok 2 }) =
      some { time := 3, result := Except.ok 0 } ∧
    properRace ({ time := 5, result := Except.ok 2 } : Op String Nat)
        { time := 3, result := Except.ok 1 } =
      properRace { time := 3, result := Except.ok 1 }
        { time := 5, result := Except.ok 2 } :=
  ⟨rfl, rfl, rfl⟩

/-- C2, amended: `properRace` accepts exactly two operations; once the race
on the derived index observers fulfils with the winning index, that index
is within bounds and is used to look up the original operation, and the
resolved outcome is a structure carrying (only) the reference to that
original operation — the winning index itself is not part of the
outcome. -/
theorem properRace_outcome_shape {ε α : Type} (A B : Op ε α) (w : Op ε Nat) (i : Nat)
    (h1 : race (indexPromisesOf A B) = some w) (h2 : w.result = Except.ok i) :
    i < 2 ∧ ∃ p, (promiseArrayOf A B)[i]? = some p ∧
      properRace A B = some { time := w.time, result := Except.ok { promise := some p } } := by
  by_cases hle : A.time ≤ B.time
  · rw [race_index_fst A B hle] at h1
    injection h1 with h1
    subst h1
    cases hA : A.result with
    | ok v =>
        simp [opThen, hA, Except.map] at h2
        subst h2
        refine ⟨by omega, A, rfl, ?_⟩
        simpa [opThen] using properRace_fst_ok A B v hle hA
    | error e =>
        simp [opThen, hA, Except.map] at h2
  · rw [race_index_snd A B hle] at h1
    injection h1 with h1
    subst h1
    cases hB : B.result with
    | ok v =>
        simp [opThen, hB, Except.map] at h2
        subst h2
        refine ⟨by omega, B, rfl, ?_⟩
        simpa [opThen] using properRace_snd_ok A B v hle hB
    | error e =>
        simp [opThen, hB, Except.map] at h2

theorem properRace_outcome_shape_witness :
    (1 : Nat) < 2 ∧ ∃ p,
      (promiseArrayOf ({ time := 5, result := Except.ok 2 } : Op String Nat)
          { time := 3, result := Except.ok 1 })[1]? = some p ∧
      properRace ({ time := 5, result := Except.ok 2 } : Op String Nat)
          { time := 3, result := Except.ok 1 } =
        some { time := 3, result := Except.ok { promise := some p } } :=
  properRace_outcome_shape
    { time := 5, result := Except.ok 2 } { time := 3, result := Except.ok 1 }
    { time := 3, result := Except.ok 1 } 1 rfl rfl

/-- One run of the race on the derived index observers, repeated `n`
times on the same pair of settled operations. -/
def winnersOf {ε α : Type} (A B : Op ε α) (n : Nat) : List (Option (Op ε Nat)) :=
  (List.range n).map (fun _ => race (indexPromisesOf A B))

/-- C7: racing the same two already-settled operations any number of times
yields the same winner (hence the same winning index) each time —
`properRace` is deterministic once its inputs are settled. -/
theorem properRace_deterministic {ε α : Type} (A B : Op ε α) (n : Nat)
    (w1 w2 : Option (Op ε Nat)) (h1 : w1 ∈ winnersOf A B n) (h2 : w2 ∈ winnersOf A B n) :
    w1 = w2 := by
  simp only [winnersOf] at h1 h2
  rcases List.mem_map.mp h1 with ⟨a, ha, e1⟩
  rcases List.mem_map.mp h2 with ⟨b, hb, e2⟩
  exact e1.symm.trans e2

theorem properRace_deterministic_witness :
    (some { time := 1, result := Except.ok 0 } : Option (Op String Nat)) =
      some { time := 1, result := Except.ok 0 } :=
  properRace_deterministic
    { time := 1, result := Except.ok 5 } { time := 2, result := Except.ok 6 } 2
    (some { time := 1, result := Except.ok 0 }) (some { time := 1, result := Except.ok 0 })
    (List.mem_map.mpr ⟨0, by decide, rfl⟩) (List.mem_map.mpr ⟨1, by decide, rfl⟩)

/-- C9: for every call of `oneOf` with two to five options, the computed
index `Math.floor(r * options.length)` is within bounds, so the lookup
never yields `undefined` and the returned value is always one of the
supplied options. -/
theorem oneOf_in_bounds {α : Type} (options : List α) (r : ℚ)
    (h0 : 0 ≤ r) (h1 : r < 1) (hlo : 2 ≤ options.length) (hhi : options.length ≤ 5) :
    ∃ v, oneOf options r = some v ∧ v ∈ options := by
  have hn : (0 : ℚ) < (options.length : ℚ) := by
    have hpos : 0 < options.length := by omega
    exact_mod_cast hpos
  have hnn : 0 ≤ r * (options.length : ℚ) := mul_nonneg h0 (le_of_lt hn)
  have hlt : r * (options.length : ℚ) < (options.length : ℚ) := by nlinarith
  have hfl0 : 0 ≤ ⌊r * (options.length : ℚ)⌋ := Int.floor_nonneg.mpr hnn
  have hfl : ⌊r * (options.length : ℚ)⌋ < (options.length : ℤ) := by
    rw [Int.floor_lt]
    exact_mod_cast hlt
  have hidx : (⌊r * (options.length : ℚ)⌋).toNat < options.length := by omega
  refine ⟨options[(⌊r * (options.length : ℚ)⌋).toNat], ?_, ?_⟩
  · rw [oneOf]
    exact List.getElem?_eq_getElem hidx
  · exact List.getElem_mem hidx

theorem oneOf_in_bounds_witness :
    ∃ v, oneOf [10, 20] (1 / 2 : ℚ) = some v ∧ v ∈ [10, 20] :=
  oneOf_in_bounds [10, 20] (1 / 2) (by norm_num) (by norm_num) (by decide) (by decide)
